import Mathlib

/-!
Verification of the essay-analyzer grading pipeline (`src/main.py`).

Strings are modelled as `List Char` (Python `str`).  The regular expression
`\x7b[\s\S]*?\x7d` (resp. the same pattern passed to `re.sub` with
`re.DOTALL`) used by `extract_scores_from_json` and the feedback sanitizer
is modelled exactly: a leftmost match starts at the first open brace of the
text and ends at the nearest close brace after it; `re.sub` repeats this on
the remainder after each match, never rescanning across a removal boundary.

`json.loads` is modelled by a recursive-descent JSON parser (`json_loads`)
over objects, arrays, strings, integers, booleans and `null`.  Two
documented simplifications of the stdlib parser: numeric literals are
modelled as integers (floating-point values are outside the model), and
`\u` escape sequences in strings are not modelled (the common single
character escapes are).
-/

namespace Essay

/-- Python `str.strip` whitespace set. -/
def isPySpace (c : Char) : Bool :=
  c = ' ' || c = '\t' || c = '\n' || c = '\r' || c = '\x0b' || c = '\x0c'

/-- Leading-whitespace removal, the left half of Python `str.strip`. -/
def stripLeft (s : List Char) : List Char := s.dropWhile isPySpace

/-- Trailing-whitespace removal, the right half of Python `str.strip`. -/
def stripRight (s : List Char) : List Char := (s.reverse.dropWhile isPySpace).reverse

/-- Python `str.strip()`: drop whitespace from both ends. -/
def strip (s : List Char) : List Char := stripRight (stripLeft s)

/-- Split a character list at the first occurrence of `c`: returns the part
before it (not containing `c`) and the part after it. -/
def splitAtChar (c : Char) : List Char → Option (List Char × List Char)
  | [] => none
  | x :: xs =>
    if x = c then some ([], xs)
    else
      match splitAtChar c xs with
      | none => none
      | some (p, r) => some (x :: p, r)

/-- The leftmost match of the regex `\x7b[\s\S]*?\x7d` (non-greedy,
DOTALL): from the first open brace of the text to the nearest close brace
after it.  Returns `(before, matched span, after)`, or `none` when the text
has no open brace followed by a close brace. -/
def firstBraceMatch (s : List Char) : Option (List Char × List Char × List Char) :=
  match splitAtChar '\x7b' s with
  | none => none
  | some (pre, rest) =>
    match splitAtChar '\x7d' rest with
    | none => none
    | some (mid, post) => some (pre, '\x7b' :: (mid ++ ['\x7d']), post)

/-- All non-overlapping matches of the brace regex, leftmost first, exactly
as `re.finditer`/`re.sub` enumerate them.  Fuel-indexed; each match consumes
at least two characters, so fuel `s.length` is always sufficient. -/
def braceSpansFuel : Nat → List Char → List (List Char)
  | 0, _ => []
  | Nat.succ n, s =>
    match firstBraceMatch s with
    | none => []
    | some (_, span, post) => span :: braceSpansFuel n post

/-- All non-overlapping brace-delimited spans of a text, leftmost first. -/
def braceSpans (s : List Char) : List (List Char) := braceSpansFuel s.length s

/-- Fuel-indexed model of `re.sub(r"\x7b.*?\x7d", "", s, flags=re.DOTALL)`:
every non-overlapping match is replaced by the empty string, scanning
resuming after each match. -/
def subAllFuel : Nat → List Char → List Char
  | 0, s => s
  | Nat.succ n, s =>
    match firstBraceMatch s with
    | none => s
    | some (pre, _, post) => pre ++ subAllFuel n post

/-- Model of `re.sub(r"\x7b.*?\x7d", "", s, flags=re.DOTALL)`. -/
def subAll (s : List Char) : List Char := subAllFuel s.length s

/-- The feedback sanitizer of `main.py` (lines 138, 244, 336):
`re.sub(r"\x7b.*?\x7d", "", feedback, flags=re.DOTALL).strip()`. -/
def sanitize (s : List Char) : List Char := strip (subAll s)

/-- Modelled from the spec: the sanitizer as §4.4 of the spec words it —
remove only the first brace-delimited span (the one the extractor locates),
then trim; used solely as the comparison point for the sanitizer claim. -/
def sanitizeFirstOnly (s : List Char) : List Char :=
  match firstBraceMatch s with
  | none => strip s
  | some (pre, _, post) => strip (pre ++ post)

/-- JSON values as produced by `json.loads`: keys and values are carried
through as parsed, with no validation of key names or value types. -/
inductive Json where
  | null : Json
  | bool : Bool → Json
  | int : Int → Json
  | str : List Char → Json
  | arr : List Json → Json
  | obj : List (List Char × Json) → Json

/-- JSON whitespace characters skipped by the stdlib decoder. -/
def isJsonWs (c : Char) : Bool := c = ' ' || c = '\t' || c = '\n' || c = '\r'

/-- Skip JSON whitespace. -/
def skipWs (s : List Char) : List Char := s.dropWhile isJsonWs

/-- ASCII decimal digit test. -/
def isDigitCh (c : Char) : Bool := '0' ≤ c && c ≤ '9'

/-- Numeric value of a digit string. -/
def digitsToNat (ds : List Char) : Nat :=
  ds.foldl (fun acc c => 10 * acc + (c.toNat - '0'.toNat)) 0

/-- The single-character string escapes of the JSON grammar. -/
def escapeChar (c : Char) : Option Char :=
  if c = '"' then some '"'
  else if c = '\\' then some '\\'
  else if c = '/' then some '/'
  else if c = 'b' then some (Char.ofNat 8)
  else if c = 'f' then some (Char.ofNat 12)
  else if c = 'n' then some '\n'
  else if c = 'r' then some '\r'
  else if c = 't' then some '\t'
  else none

/-- Parse the body of a JSON string after the opening quote, up to and
including the closing quote. -/
def parseStringBody : List Char → Option (List Char × List Char)
  | [] => none
  | '"' :: rest => some ([], rest)
  | '\\' :: c :: rest =>
    match escapeChar c with
    | none => none
    | some ch =>
      match parseStringBody rest with
      | none => none
      | some (cs, rem) => some (ch :: cs, rem)
  | c :: rest =>
    match parseStringBody rest with
    | none => none
    | some (cs, rem) => some (c :: cs, rem)

/-- Magnitude of a JSON integer literal: `0`, or a nonzero leading digit
followed by digits (the grammar forbids redundant leading zeros). -/
def parseNumMag (s : List Char) : Option (Nat × List Char) :=
  match s with
  | '0' :: rest => some (0, rest)
  | _ =>
    let ds := s.takeWhile isDigitCh
    if ds.isEmpty then none else some (digitsToNat ds, s.dropWhile isDigitCh)

/-- A JSON integer literal with optional leading minus sign. -/
def parseNumber (s : List Char) : Option (Int × List Char) :=
  match s with
  | '-' :: rest =>
    match parseNumMag rest with
    | none => none
    | some (n, rem) => some (-(n : Int), rem)
  | _ =>
    match parseNumMag s with
    | none => none
    | some (n, rem) => some ((n : Int), rem)

/-- The mutually recursive obligations of the JSON grammar, folded into one
fuel-indexed function: a value, an object body (closing brace or first
member), a nonempty member list, an array body, a nonempty item list. -/
inductive ParseTask where
  | value : ParseTask
  | objBody : ParseTask
  | objMember : ParseTask
  | arrBody : ParseTask
  | arrItem : ParseTask

/-- Recursive-descent JSON parser; fuel decreases at every recursive call
and each level of the grammar consumes at least one character, so fuel
`length + 1` always suffices. -/
def parseJson : Nat → ParseTask → List Char → Option (Json × List Char)
  | 0, _, _ => none
  | Nat.succ n, ParseTask.value, s =>
    match skipWs s with
    | 'n' :: 'u' :: 'l' :: 'l' :: rest => some (Json.null, rest)
    | 't' :: 'r' :: 'u' :: 'e' :: rest => some (Json.bool true, rest)
    | 'f' :: 'a' :: 'l' :: 's' :: 'e' :: rest => some (Json.bool false, rest)
    | '"' :: rest =>
      match parseStringBody rest with
      | none => none
      | some (cs, rem) => some (Json.str cs, rem)
    | '\x7b' :: rest => parseJson n ParseTask.objBody rest
    | '[' :: rest => parseJson n ParseTask.arrBody rest
    | other =>
      match parseNumber other with
      | none => none
      | some (i, rem) => some (Json.int i, rem)
  | Nat.succ n, ParseTask.objBody, s =>
    match skipWs s with
    | '\x7d' :: rest => some (Json.obj [], rest)
    | _ => parseJson n ParseTask.objMember s
  | Nat.succ n, ParseTask.objMember, s =>
    match skipWs s with
    | '"' :: rest =>
      match parseStringBody rest with
      | none => none
      | some (key, rem) =>
        match skipWs rem with
        | ':' :: rem₂ =>
          match parseJson n ParseTask.value rem₂ with
          | none => none
          | some (v, rem₃) =>
            match skipWs rem₃ with
            | ',' :: rem₄ =>
              match parseJson n ParseTask.objMember rem₄ with
              | some (Json.obj ms, rem₅) => some (Json.obj ((key, v) :: ms), rem₅)
              | _ => none
            | '\x7d' :: rem₄ => some (Json.obj [(key, v)], rem₄)
            | _ => none
        | _ => none
    | _ => none
  | Nat.succ n, ParseTask.arrBody, s =>
    match skipWs s with
    | ']' :: rest => some (Json.arr [], rest)
    | _ => parseJson n ParseTask.arrItem s
  | Nat.succ n, ParseTask.arrItem, s =>
    match parseJson n ParseTask.value s with
    | none => none
    | some (v, rem) =>
      match skipWs rem with
      | ',' :: rem₂ =>
        match parseJson n ParseTask.arrItem rem₂ with
        | some (Json.arr vs, rem₃) => some (Json.arr (v :: vs), rem₃)
        | _ => none
      | ']' :: rem₂ => some (Json.arr [v], rem₂)
      | _ => none

/-- Model of `json.loads`: parse one JSON document, allowing trailing whitespace
only; any failure is an exception in Python, `none` here. -/
def json_loads (s : List Char) : Option Json :=
  match parseJson (s.length + 1) ParseTask.value s with
  | none => none
  | some (v, rest) => if skipWs rest = [] then some v else none

/-- Model of `extract_scores_from_json` (main.py lines 204-212): search for the
first non-greedy brace span, parse it with `json.loads` and return the
result unvalidated; on no match or any parse exception return `None`. -/
def extract_scores_from_json (feedback : List Char) : Option Json :=
  match firstBraceMatch feedback with
  | none => none
  | some (_, span, _) => json_loads span

/-- Outcome of one call to the generation capability, as observed by the
`for chunk in llm.stream(prompt)` loop: the fragments delivered before
completion, and the error message when the capability raised instead of
completing. -/
structure GenOutcome where
  chunks : List (List Char)
  error : Option (List Char)

/-- The text prefixed to the exception message by
`yield f"錯誤: \x7bstr(e)\x7d"` in `get_feedback_stream`. -/
def errHeader : List Char := ("錯誤: " : String).data

/-- Model of `get_feedback_stream` (main.py lines 166-202): yield each fragment in
arrival order; when the capability raises, catch the exception and yield
one error-marker fragment instead of propagating. -/
def get_feedback_stream (g : GenOutcome) : List (List Char) :=
  match g.error with
  | none => g.chunks
  | some e => g.chunks ++ [errHeader ++ e]

/-- The accumulation loop `feedback += chunk` of main.py lines 307-313. -/
def accumulate (chunks : List (List Char)) : List Char :=
  chunks.foldl (fun acc c => acc ++ c) []

/-- The full feedback text of one grading call. -/
def gradeFeedback (g : GenOutcome) : List Char := accumulate (get_feedback_stream g)

/-- One committed history entry (the dict appended at main.py line 324). -/
structure SessionRecord where
  timestamp : List Char
  question : List Char
  answer : List Char
  feedback : List Char
  scores : Option Json

/-- The record built by one grading call (main.py lines 307-330): feedback
is the accumulated stream, scores the extractor output on it, timestamp the
wall clock at commit time. -/
def gradeRecord (question answer now : List Char) (g : GenOutcome) : SessionRecord :=
  { timestamp := now
    question := question
    answer := answer
    feedback := gradeFeedback g
    scores := extract_scores_from_json (gradeFeedback g) }

/-- The session state touched by the grading branch of `main`. -/
structure AppState where
  current_feedback : Option (List Char)
  current_scores : Option Json
  chat_history : List SessionRecord

/-- Observable side effects of one pass through the grading branch. -/
inductive Effect where
  | infoPrompt : Effect
  | generationCall : Effect
  | showResults : Effect

/-- Python string truthiness: nonempty. -/
def pyTruthy (s : List Char) : Bool := !s.isEmpty

/-- Python truthiness of `Optional[str]`: `None` and `""` are falsy. -/
def optTruthy : Option (List Char) → Bool
  | none => false
  | some s => !s.isEmpty

/-- The submission-handling branch of `main` (main.py lines 302-367): with
both inputs nonempty and no feedback pending, a click runs the grading
call, stores feedback and scores, and appends exactly one record to the
history; with feedback pending, results are re-displayed; with an empty
input, only the validation message is emitted. -/
def main_submit_step (question answer : List Char) (clicked : Bool) (g : GenOutcome)
    (now : List Char) (st : AppState) : AppState × List Effect :=
  if pyTruthy question && pyTruthy answer then
    if !optTruthy st.current_feedback then
      if clicked then
        let record := gradeRecord question answer now g
        ({ current_feedback := some record.feedback
           current_scores := record.scores
           chat_history := st.chat_history ++ [record] }, [Effect.generationCall])
      else (st, [])
    else (st, [Effect.showResults])
  else (st, [Effect.infoPrompt])

/-- Display order of `display_chat_history` (main.py line 233):
`reversed(st.session_state.chat_history)`, most recent first. -/
def displayed_history (h : List SessionRecord) : List SessionRecord := h.reverse

/-- Model of `create_radar_chart` (main.py lines 214-225): close the polygon by
appending the first element again (`scores + scores[:1]`), on both the
radial values and the axis labels. -/
def create_radar_chart (scores : List Int) (categories : List (List Char)) :
    List Int × List (List Char) :=
  (scores ++ scores.take 1, categories ++ categories.take 1)

/-- Model of `sum(scores.values())`. -/
def sumValues (scores : List (List Char × Int)) : Int := (scores.map Prod.snd).sum

/-- Decimal rendering of an integer, as Python string interpolation does. -/
def intStr (i : Int) : List Char := (toString i).data

/-- Model of `display_scores` (main.py lines 159-164) as the list of written lines:
heading, total out of a hard-coded 25, then one line per present category
out of 5. -/
def display_scores (scores : List (List Char × Int)) : List (List Char) :=
  ("### 詳細評分" : String).data ::
    (("### 總分: " : String).data ++ intStr (sumValues scores) ++ (" / 25 分" : String).data) ::
    scores.map (fun p =>
      ("**" : String).data ++ p.1 ++ ("**: " : String).data ++ intStr p.2 ++
        (" / 5 分" : String).data)

/-- The total line written by `display_chat_history` (main.py lines
239-240), with the same hard-coded denominator. -/
def history_total_line (scores : List (List Char × Int)) : List Char :=
  ("**總分**: " : String).data ++ intStr (sumValues scores) ++ ("/25 分" : String).data

/-- Elements of the Python lists passed to `create_radar_chart`. -/
inductive PyVal where
  | int : Int → PyVal
  | str : List Char → PyVal

/-- Read a list out of the heap of live Python list objects. -/
def heapGet (h : List (List PyVal)) (r : Nat) : List PyVal := h.getD r []

/-- Allocate a fresh Python list and return its reference. -/
def heapAlloc (h : List (List PyVal)) (v : List PyVal) : List (List PyVal) × Nat :=
  (h ++ [v], h.length)

/-- Python `xs + xs[:1]`: both `+` and the slice allocate, so the result is
a fresh list and the argument object is untouched. -/
def pyConcatTakeOne (h : List (List PyVal)) (r : Nat) : List (List PyVal) × Nat :=
  heapAlloc h (heapGet h r ++ (heapGet h r).take 1)

/-- Model of `create_radar_chart` at the level of Python list objects (main.py lines
214-216): the two local rebindings `scores = scores + scores[:1]` and
`categories = categories + categories[:1]` allocate fresh lists; the
caller's lists are never written. -/
def create_radar_chart_py (h : List (List PyVal)) (rScores rCats : Nat) :
    List (List PyVal) × Nat × Nat :=
  let p := pyConcatTakeOne h rScores
  let q := pyConcatTakeOne p.1 rCats
  (q.1, p.2, q.2)

theorem splitAtChar_eq_some {c : Char} {s p r : List Char}
    (h : splitAtChar c s = some (p, r)) : s = p ++ c :: r ∧ c ∉ p := by
  induction s generalizing p r with
  | nil => simp [splitAtChar] at h
  | cons x xs ih =>
    by_cases hx : x = c
    · subst hx
      simp [splitAtChar] at h
      obtain ⟨hp, hr⟩ := h
      subst hp; subst hr
      exact ⟨rfl, List.not_mem_nil x⟩
    · rw [splitAtChar, if_neg hx] at h
      cases hs : splitAtChar c xs with
      | none => rw [hs] at h; exact absurd h (by simp)
      | some pr =>
        obtain ⟨p', r'⟩ := pr
        rw [hs] at h
        simp only [Option.some.injEq, Prod.mk.injEq] at h
        obtain ⟨hp, hr⟩ := h
        obtain ⟨hxs, hnp⟩ := ih hs
        subst hr
        constructor
        · rw [← hp]; simp [hxs]
        · rw [← hp]
          intro hmem
          rcases List.mem_cons.mp hmem with h1 | h2
          · exact hx h1.symm
          · exact hnp h2

theorem splitAtChar_isSome_of_mem {c : Char} {s : List Char} (h : c ∈ s) :
    (splitAtChar c s).isSome = true := by
  induction s with
  | nil => simp at h
  | cons x xs ih =>
    by_cases hx : x = c
    · subst hx; simp [splitAtChar]
    · rw [splitAtChar, if_neg hx]
      have hmem : c ∈ xs := by
        rcases List.mem_cons.mp h with h1 | h2
        · exact absurd h1.symm hx
        · exact h2
      cases hs : splitAtChar c xs with
      | none => rw [hs] at ih; exact absurd (ih hmem) (by simp)
      | some pr => simp

theorem splitAtChar_append_left {c : Char} {p : List Char} (t : List Char) (hp : c ∉ p) :
    splitAtChar c (p ++ t) =
      match splitAtChar c t with
      | none => none
      | some (q, r) => some (p ++ q, r) := by
  induction p with
  | nil =>
    simp only [List.nil_append]
    cases splitAtChar c t with
    | none => rfl
    | some pr => obtain ⟨q, r⟩ := pr; rfl
  | cons x xs ih =>
    have hx : x ≠ c := fun he => hp (he ▸ List.mem_cons_self x xs)
    have hxs : c ∉ xs := fun hm => hp (List.mem_cons_of_mem x hm)
    rw [List.cons_append, splitAtChar, if_neg hx, ih hxs]
    cases splitAtChar c t with
    | none => rfl
    | some pr => obtain ⟨q, r⟩ := pr; rfl

theorem fbm_eq_none_l {s : List Char} (h : splitAtChar '\x7b' s = none) :
    firstBraceMatch s = none := by
  simp only [firstBraceMatch, h]

theorem fbm_eq_none_r {s pre rest : List Char} (h1 : splitAtChar '\x7b' s = some (pre, rest))
    (h2 : splitAtChar '\x7d' rest = none) : firstBraceMatch s = none := by
  simp only [firstBraceMatch, h1, h2]

theorem fbm_eq_some {s pre rest mid post : List Char}
    (h1 : splitAtChar '\x7b' s = some (pre, rest))
    (h2 : splitAtChar '\x7d' rest = some (mid, post)) :
    firstBraceMatch s = some (pre, '\x7b' :: (mid ++ ['\x7d']), post) := by
  simp only [firstBraceMatch, h1, h2]

theorem fbm_cases (s : List Char) :
    firstBraceMatch s = none ∨
      ∃ pre rest mid post, splitAtChar '\x7b' s = some (pre, rest) ∧
        splitAtChar '\x7d' rest = some (mid, post) ∧
        firstBraceMatch s = some (pre, '\x7b' :: (mid ++ ['\x7d']), post) := by
  cases h1 : splitAtChar '\x7b' s with
  | none => exact Or.inl (fbm_eq_none_l h1)
  | some pr1 =>
    obtain ⟨pre, rest⟩ := pr1
    cases h2 : splitAtChar '\x7d' rest with
    | none => exact Or.inl (fbm_eq_none_r h1 h2)
    | some pr2 =>
      obtain ⟨mid, post⟩ := pr2
      refine Or.inr ⟨pre, rest, mid, post, ?_, ?_, ?_⟩
      · rfl
      · exact h2
      · exact fbm_eq_some h1 h2

theorem firstBraceMatch_decomp {s pre span post : List Char}
    (h : firstBraceMatch s = some (pre, span, post)) :
    ∃ mid, s = pre ++ '\x7b' :: (mid ++ '\x7d' :: post) ∧
      span = '\x7b' :: (mid ++ ['\x7d']) ∧ '\x7b' ∉ pre := by
  cases h1 : splitAtChar '\x7b' s with
  | none => rw [fbm_eq_none_l h1] at h; exact absurd h (by simp)
  | some pr1 =>
    obtain ⟨pre', rest⟩ := pr1
    cases h2 : splitAtChar '\x7d' rest with
    | none => rw [fbm_eq_none_r h1 h2] at h; exact absurd h (by simp)
    | some pr2 =>
      obtain ⟨mid, post'⟩ := pr2
      rw [fbm_eq_some h1 h2] at h
      simp only [Option.some.injEq, Prod.mk.injEq] at h
      obtain ⟨hpre, hspan, hpost⟩ := h
      subst hpre; subst hspan; subst hpost
      obtain ⟨hs1, hnp1⟩ := splitAtChar_eq_some h1
      obtain ⟨hs2, _⟩ := splitAtChar_eq_some h2
      exact ⟨mid, by rw [hs1, hs2], rfl, hnp1⟩

theorem firstBraceMatch_parts {s pre span post : List Char}
    (h : firstBraceMatch s = some (pre, span, post)) :
    s = pre ++ span ++ post ∧ 2 ≤ span.length ∧ '\x7b' ∉ pre := by
  obtain ⟨mid, hs, hspan, hnp⟩ := firstBraceMatch_decomp h
  refine ⟨?_, ?_, hnp⟩
  · rw [hs, hspan]; simp
  · rw [hspan]; simp

theorem firstBraceMatch_isSome_of_decomp (l m r : List Char) :
    (firstBraceMatch (l ++ '\x7b' :: (m ++ '\x7d' :: r))).isSome = true := by
  induction l with
  | nil =>
    have h1 : splitAtChar '\x7b' ('\x7b' :: (m ++ '\x7d' :: r)) =
        some ([], m ++ '\x7d' :: r) := by simp [splitAtChar]
    have hmem : '\x7d' ∈ m ++ '\x7d' :: r := by simp
    have h2 := splitAtChar_isSome_of_mem hmem
    cases hs : splitAtChar '\x7d' (m ++ '\x7d' :: r) with
    | none => rw [hs] at h2; exact absurd h2 (by simp)
    | some pr =>
      obtain ⟨a, b⟩ := pr
      rw [List.nil_append, fbm_eq_some h1 hs]
      rfl
  | cons x xs ih =>
    by_cases hx : x = '\x7b'
    · subst hx
      have h1 : splitAtChar '\x7b' ('\x7b' :: (xs ++ '\x7b' :: (m ++ '\x7d' :: r))) =
          some ([], xs ++ '\x7b' :: (m ++ '\x7d' :: r)) := by simp [splitAtChar]
      have hmem : '\x7d' ∈ xs ++ '\x7b' :: (m ++ '\x7d' :: r) := by simp
      have h2 := splitAtChar_isSome_of_mem hmem
      cases hs : splitAtChar '\x7d' (xs ++ '\x7b' :: (m ++ '\x7d' :: r)) with
      | none => rw [hs] at h2; exact absurd h2 (by simp)
      | some pr =>
        obtain ⟨a, b⟩ := pr
        rw [List.cons_append, fbm_eq_some h1 hs]
        rfl
    · rcases fbm_cases (xs ++ '\x7b' :: (m ++ '\x7d' :: r)) with hnone |
        ⟨pre, rest, mid, post, h1, h2, _⟩
      · rw [hnone] at ih; exact absurd ih (by simp)
      · have h1' : splitAtChar '\x7b' (x :: (xs ++ '\x7b' :: (m ++ '\x7d' :: r))) =
            some (x :: pre, rest) := by
          simp only [splitAtChar, if_neg hx, h1]
        rw [List.cons_append, fbm_eq_some h1' h2]
        rfl

theorem firstBraceMatch_none_append {pre t : List Char} (hp : '\x7b' ∉ pre)
    (ht : firstBraceMatch t = none) : firstBraceMatch (pre ++ t) = none := by
  cases h1 : splitAtChar '\x7b' t with
  | none =>
    have hac : splitAtChar '\x7b' (pre ++ t) = none := by
      simp only [splitAtChar_append_left t hp, h1]
    exact fbm_eq_none_l hac
  | some pr1 =>
    obtain ⟨q, rest⟩ := pr1
    have hac : splitAtChar '\x7b' (pre ++ t) = some (pre ++ q, rest) := by
      simp only [splitAtChar_append_left t hp, h1]
    cases h2 : splitAtChar '\x7d' rest with
    | none => exact fbm_eq_none_r hac h2
    | some pr2 =>
      obtain ⟨a, b⟩ := pr2
      rw [fbm_eq_some h1 h2] at ht
      exact absurd ht (by simp)

theorem subAllFuel_nil (n : Nat) : subAllFuel n [] = [] := by
  cases n with
  | zero => rfl
  | succ k =>
    have h : firstBraceMatch ([] : List Char) = none := rfl
    simp only [subAllFuel, h]

theorem subAllFuel_of_none {s : List Char} (n : Nat) (h : firstBraceMatch s = none) :
    subAllFuel n s = s := by
  cases n with
  | zero => rfl
  | succ k => simp only [subAllFuel, h]

theorem subAllFuel_of_some {s pre span post : List Char} (n : Nat)
    (h : firstBraceMatch s = some (pre, span, post)) :
    subAllFuel (n + 1) s = pre ++ subAllFuel n post := by
  simp only [subAllFuel, h]

theorem subAllFuel_eq_of_le : ∀ (n m : Nat) (s : List Char),
    s.length ≤ n → s.length ≤ m → subAllFuel n s = subAllFuel m s := by
  intro n
  induction n with
  | zero =>
    intro m s hn _
    have hs : s = [] := List.length_eq_zero.mp (Nat.le_zero.mp hn)
    subst hs
    rw [subAllFuel_nil, subAllFuel_nil]
  | succ k ih =>
    intro m s hn hm
    cases hfb : firstBraceMatch s with
    | none => rw [subAllFuel_of_none (k + 1) hfb, subAllFuel_of_none m hfb]
    | some pr =>
      obtain ⟨pre, span, post⟩ := pr
      obtain ⟨hs, hlen, _⟩ := firstBraceMatch_parts hfb
      have hlens : s.length = pre.length + span.length + post.length := by
        rw [hs]; simp; omega
      have hpost_k : post.length ≤ k := by omega
      cases m with
      | zero => omega
      | succ m' =>
        have hpost_m : post.length ≤ m' := by omega
        rw [subAllFuel_of_some k hfb, subAllFuel_of_some m' hfb, ih m' post hpost_k hpost_m]

theorem subAll_of_none {s : List Char} (h : firstBraceMatch s = none) : subAll s = s :=
  subAllFuel_of_none s.length h

theorem subAll_of_some {s pre span post : List Char}
    (h : firstBraceMatch s = some (pre, span, post)) :
    subAll s = pre ++ subAll post := by
  obtain ⟨hs, hlen, _⟩ := firstBraceMatch_parts h
  have hlens : s.length = pre.length + span.length + post.length := by
    rw [hs]; simp; omega
  have hpos : 1 ≤ s.length := by omega
  have hrw : subAllFuel s.length s = subAllFuel (s.length - 1 + 1) s := by
    congr 1; omega
  rw [subAll, hrw, subAllFuel_of_some (s.length - 1) h, subAll]
  congr 1
  exact subAllFuel_eq_of_le (s.length - 1) post.length post (by omega) (Nat.le_refl _)

theorem subAll_noMatch : ∀ (s : List Char), firstBraceMatch (subAll s) = none := by
  have main : ∀ (n : Nat) (s : List Char), s.length ≤ n →
      firstBraceMatch (subAllFuel n s) = none := by
    intro n
    induction n with
    | zero =>
      intro s hn
      have hs : s = [] := List.length_eq_zero.mp (Nat.le_zero.mp hn)
      subst hs
      rw [subAllFuel_nil]
      rfl
    | succ k ih =>
      intro s hn
      cases hfb : firstBraceMatch s with
      | none => rw [subAllFuel_of_none (k + 1) hfb]; exact hfb
      | some pr =>
        obtain ⟨pre, span, post⟩ := pr
        obtain ⟨hs, hlen, hnp⟩ := firstBraceMatch_parts hfb
        have hlens : s.length = pre.length + span.length + post.length := by
          rw [hs]; simp; omega
        rw [subAllFuel_of_some k hfb]
        exact firstBraceMatch_none_append hnp (ih post (by omega))
  intro s
  exact main s.length s (Nat.le_refl _)

theorem dropWhile_dropWhile (p : Char → Bool) :
    ∀ l : List Char, List.dropWhile p (List.dropWhile p l) = List.dropWhile p l := by
  intro l
  induction l with
  | nil => rfl
  | cons c cs ih =>
    by_cases hc : p c = true
    · rw [List.dropWhile_cons_of_pos hc, ih]
    · have hc' : p c = false := by simpa using hc
      rw [List.dropWhile_cons_of_neg (by simp [hc']), List.dropWhile_cons_of_neg (by simp [hc'])]

theorem dropWhile_head_false {p : Char → Bool} {l : List Char} {c : Char} {r : List Char}
    (h : List.dropWhile p l = c :: r) : p c = false := by
  induction l with
  | nil => simp at h
  | cons x xs ih =>
    by_cases hx : p x = true
    · rw [List.dropWhile_cons_of_pos hx] at h; exact ih h
    · have hx' : p x = false := by simpa using hx
      rw [List.dropWhile_cons_of_neg (by simp [hx'])] at h
      injection h with hxc hxsr
      rw [← hxc]
      exact hx'

theorem stripLeft_decomp (s : List Char) : s = s.takeWhile isPySpace ++ stripLeft s :=
  (List.takeWhile_append_dropWhile isPySpace s).symm

theorem stripRight_decomp (u : List Char) :
    u = stripRight u ++ (u.reverse.takeWhile isPySpace).reverse := by
  calc u = u.reverse.reverse := (List.reverse_reverse u).symm
    _ = (u.reverse.takeWhile isPySpace ++ u.reverse.dropWhile isPySpace).reverse := by
        rw [List.takeWhile_append_dropWhile]
    _ = (u.reverse.dropWhile isPySpace).reverse ++ (u.reverse.takeWhile isPySpace).reverse := by
        rw [List.reverse_append]
    _ = stripRight u ++ (u.reverse.takeWhile isPySpace).reverse := rfl

theorem strip_decomp (s : List Char) : ∃ a b, s = a ++ strip s ++ b := by
  refine ⟨s.takeWhile isPySpace, ((stripLeft s).reverse.takeWhile isPySpace).reverse, ?_⟩
  calc s = s.takeWhile isPySpace ++ stripLeft s := stripLeft_decomp s
    _ = s.takeWhile isPySpace ++
          (stripRight (stripLeft s) ++ ((stripLeft s).reverse.takeWhile isPySpace).reverse) := by
        rw [← stripRight_decomp]
    _ = s.takeWhile isPySpace ++ strip s ++ ((stripLeft s).reverse.takeWhile isPySpace).reverse := by
        rw [List.append_assoc]; rfl

theorem stripRight_stripRight (u : List Char) : stripRight (stripRight u) = stripRight u := by
  simp only [stripRight, List.reverse_reverse, dropWhile_dropWhile]

theorem strip_strip (s : List Char) : strip (strip s) = strip s := by
  show stripRight (stripLeft (stripRight (stripLeft s))) = stripRight (stripLeft s)
  cases h : stripRight (stripLeft s) with
  | nil => rfl
  | cons c w =>
    have hdec := stripRight_decomp (stripLeft s)
    rw [h] at hdec
    have h2 : List.dropWhile isPySpace s =
        c :: (w ++ ((stripLeft s).reverse.takeWhile isPySpace).reverse) := by
      rw [← List.cons_append]
      exact hdec
    have hc : isPySpace c = false := dropWhile_head_false h2
    have h3 : stripLeft (c :: w) = c :: w := by
      show List.dropWhile isPySpace (c :: w) = c :: w
      rw [List.dropWhile_cons_of_neg (by simp [hc])]
    rw [h3, ← h]
    exact stripRight_stripRight (stripLeft s)

theorem strip_noMatch {t : List Char} (ht : firstBraceMatch t = none) :
    firstBraceMatch (strip t) = none := by
  cases hfb : firstBraceMatch (strip t) with
  | none => rfl
  | some pr =>
    obtain ⟨pre, span, post⟩ := pr
    obtain ⟨mid, hst, hspan, hnp⟩ := firstBraceMatch_decomp hfb
    obtain ⟨a, b, hdec⟩ := strip_decomp t
    have heq : t = (a ++ pre) ++ '\x7b' :: (mid ++ '\x7d' :: (post ++ b)) := by
      rw [hdec, hst]
      simp [List.append_assoc]
    have hsome := firstBraceMatch_isSome_of_decomp (a ++ pre) mid (post ++ b)
    rw [← heq, ht] at hsome
    simp at hsome

theorem braceSpans_one {s frag : List Char} (h : braceSpans s = [frag]) :
    ∃ pre post, firstBraceMatch s = some (pre, frag, post) := by
  rw [braceSpans] at h
  cases hl : s.length with
  | zero =>
    have hs : s = [] := List.length_eq_zero.mp hl
    subst hs
    simp [braceSpansFuel] at h
  | succ k =>
    rw [hl] at h
    cases hfb : firstBraceMatch s with
    | none => simp [braceSpansFuel, hfb] at h
    | some pr =>
      obtain ⟨pre, span, post⟩ := pr
      simp only [braceSpansFuel, hfb] at h
      have hspan : span = frag := (List.cons.injEq span _ frag []).mp h |>.1
      exact ⟨pre, post, by rw [hspan]⟩

/-- C1: for every full text whose list of brace-delimited fragments is
exactly one fragment, and that fragment is valid JSON, the score extractor
returns precisely the fragment's parsed content — keys and values passed
through unvalidated (the `Json` result carries arbitrary keys and
non-integer values untouched). -/
theorem C1_extract_returns_parsed_fragment (text frag : List Char) (m : Json)
    (h1 : braceSpans text = [frag]) (h2 : json_loads frag = some m) :
    extract_scores_from_json text = some m := by
  obtain ⟨pre, post, hfb⟩ := braceSpans_one h1
  simp only [extract_scores_from_json, hfb]
  exact h2

def extractWText : List Char := ("評語 \x7b\"總評\": \"優\", \"extra\": 7\x7d 完" : String).data

def extractWFrag : List Char := ("\x7b\"總評\": \"優\", \"extra\": 7\x7d" : String).data

def extractWVal : Json :=
  Json.obj [(("總評" : String).data, Json.str ("優" : String).data),
            (("extra" : String).data, Json.int 7)]

/-- C1 witness: a text with one brace fragment holding an unrecognized key
and a non-integer value; the extractor returns it parsed, unvalidated. -/
theorem C1_witness :
    braceSpans extractWText = [extractWFrag] ∧
    json_loads extractWFrag = some extractWVal ∧
    extract_scores_from_json extractWText = some extractWVal :=
  ⟨rfl, rfl, C1_extract_returns_parsed_fragment extractWText extractWFrag extractWVal rfl rfl⟩

/-- C2: on any input with no brace-delimited span, or whose first
non-greedy brace span is not valid JSON, the extractor returns `none` (the
Python function catches the parse exception and falls through to
`return None`; the model is total, so no exception escapes). -/
theorem C2_extract_absent (text : List Char)
    (h : firstBraceMatch text = none ∨
      ∃ pre span post, firstBraceMatch text = some (pre, span, post) ∧ json_loads span = none) :
    extract_scores_from_json text = none := by
  rcases h with hn | ⟨pre, span, post, hs, hj⟩
  · simp only [extract_scores_from_json, hn]
  · simp only [extract_scores_from_json, hs]
    exact hj

/-- C2 witness: a span with a trailing comma is malformed JSON, and the
extractor returns `none` on the surrounding text. -/
theorem C2_witness :
    extract_scores_from_json ("分數 \x7btrailing, \x7d 回饋" : String).data = none :=
  C2_extract_absent ("分數 \x7btrailing, \x7d 回饋" : String).data
    (Or.inr ⟨("分數 " : String).data, ("\x7btrailing, \x7d" : String).data,
      (" 回饋" : String).data, rfl, rfl⟩)

def sanitizerCex : List Char := ("a\x7bx\x7db\x7by\x7dc" : String).data

/-- C3 counterexample: on a text with two brace spans the code's sanitizer
(`re.sub`) removes both spans, not only the first as the claim states, so
it differs from the spec-worded remove-first-span-only sanitizer. -/
theorem C3_counterexample :
    sanitize sanitizerCex = ("abc" : String).data ∧
    sanitizeFirstOnly sanitizerCex = ("ab\x7by\x7dc" : String).data ∧
    sanitize sanitizerCex ≠ sanitizeFirstOnly sanitizerCex :=
  ⟨rfl, rfl, by decide⟩

/-- C3 amended: the sanitizer removes every non-overlapping brace span,
leftmost first — the first removed span being exactly the span the
extractor parses — then trims; with no span the output is the trimmed
input, and the output never retains a brace-delimited span. -/
theorem C3_sanitizer_removes_all_spans (s : List Char) :
    (firstBraceMatch s = none → sanitize s = strip s) ∧
    (∀ pre span post, firstBraceMatch s = some (pre, span, post) →
      sanitize s = strip (pre ++ subAll post) ∧
      extract_scores_from_json s = json_loads span) ∧
    firstBraceMatch (sanitize s) = none := by
  refine ⟨?_, ?_, ?_⟩
  · intro h
    rw [sanitize, subAll_of_none h]
  · intro pre span post h
    constructor
    · rw [sanitize, subAll_of_some h]
    · simp only [extract_scores_from_json, h]
  · exact strip_noMatch (subAll_noMatch s)

/-- C3 witness: both branches of the amended sanitizer claim at concrete
inputs — a spanless text is merely trimmed, and a two-span text is the
first span's removal followed by removal of the rest. -/
theorem C3_witness :
    sanitize ("  回饋  " : String).data = strip ("  回饋  " : String).data ∧
    sanitize sanitizerCex =
      strip (("a" : String).data ++ subAll ("b\x7by\x7dc" : String).data) :=
  ⟨(C3_sanitizer_removes_all_spans ("  回饋  " : String).data).1 rfl,
   ((C3_sanitizer_removes_all_spans sanitizerCex).2.1 ("a" : String).data
     ("\x7bx\x7d" : String).data ("b\x7by\x7dc" : String).data rfl).1⟩

/-- C4: the feedback sanitizer is idempotent — after one pass no brace
span remains and the whitespace trim is itself idempotent. -/
theorem C4_sanitize_idempotent (s : List Char) : sanitize (sanitize s) = sanitize s := by
  have h1 : firstBraceMatch (subAll s) = none := subAll_noMatch s
  have h2 : firstBraceMatch (strip (subAll s)) = none := strip_noMatch h1
  show strip (subAll (strip (subAll s))) = strip (subAll s)
  rw [subAll_of_none h2]
  exact strip_strip (subAll s)

def genErrCex : List Char := ("\x7b\"切題性\": 1\x7d" : String).data

/-- C5 counterexample: when the exception message itself contains a valid
brace-delimited JSON span, the extractor does not return absent on the
error-marker text and the record's score field is populated — contrary to
the claim's unconditional conclusion. -/
theorem C5_counterexample :
    (extract_scores_from_json (gradeFeedback ⟨[], some genErrCex⟩)).isSome = true ∧
    ((gradeRecord ("題" : String).data ("答" : String).data
        ("2026-10-12 00:00:00" : String).data ⟨[], some genErrCex⟩).scores).isSome = true :=
  ⟨rfl, rfl⟩

/-- C5 amended: on a generation error the consumer yields the delivered
chunks followed by one error-marker fragment and propagates no exception;
provided the error-marker text contains no brace-delimited span, on an
error raised before any chunk the extractor returns absent on the resulting
text and the record's score field stays unpopulated. -/
theorem C5_error_degrades_gracefully (chunks : List (List Char)) (e q a now : List Char)
    (hb : firstBraceMatch (errHeader ++ e) = none) :
    get_feedback_stream ⟨chunks, some e⟩ = chunks ++ [errHeader ++ e] ∧
    (chunks = [] →
      extract_scores_from_json (gradeFeedback ⟨chunks, some e⟩) = none ∧
      (gradeRecord q a now ⟨chunks, some e⟩).scores = none) := by
  constructor
  · rfl
  · intro hc
    subst hc
    have hf : gradeFeedback ⟨[], some e⟩ = errHeader ++ e := by
      simp [gradeFeedback, get_feedback_stream, accumulate]
    have hext : extract_scores_from_json (gradeFeedback ⟨[], some e⟩) = none := by
      rw [hf]
      simp only [extract_scores_from_json, hb]
    exact ⟨hext, hext⟩

/-- C5 witness: a brace-free transport-error message at concrete inputs. -/
theorem C5_witness :
    get_feedback_stream ⟨[], some ("connection timeout" : String).data⟩ =
      [] ++ [errHeader ++ ("connection timeout" : String).data] ∧
    (([] : List (List Char)) = [] →
      extract_scores_from_json
        (gradeFeedback ⟨[], some ("connection timeout" : String).data⟩) = none ∧
      (gradeRecord ("q" : String).data ("a" : String).data ("t" : String).data
        ⟨[], some ("connection timeout" : String).data⟩).scores = none) :=
  C5_error_degrades_gracefully [] ("connection timeout" : String).data
    ("q" : String).data ("a" : String).data ("t" : String).data rfl

/-- C6: an empty question or an empty answer short-circuits the grading
branch — the state (history included) is unchanged, no generation call
happens, and the validation message is the only emitted effect. -/
theorem C6_empty_input_rejected (q a : List Char) (clicked : Bool) (g : GenOutcome)
    (now : List Char) (st : AppState) (h : q = [] ∨ a = []) :
    main_submit_step q a clicked g now st = (st, [Effect.infoPrompt]) := by
  rcases h with hq | ha
  · subst hq
    simp [main_submit_step, pyTruthy]
  · subst ha
    simp [main_submit_step, pyTruthy]

/-- C6 witness: empty question, nonempty answer, button clicked. -/
theorem C6_witness :
    main_submit_step [] ("答案" : String).data true ⟨[], none⟩ ("t" : String).data
      ⟨none, none, []⟩ = (⟨none, none, []⟩, [Effect.infoPrompt]) :=
  C6_empty_input_rejected [] ("答案" : String).data true ⟨[], none⟩ ("t" : String).data
    ⟨none, none, []⟩ (Or.inl rfl)

/-- C7: one grading call commits exactly one record — the new history is
the old history with a single record appended at the end — the timestamp is
the commit-time clock value, and display order is the reverse, putting the
new record first (most recent first). -/
theorem C7_exactly_one_record (q a : List Char) (g : GenOutcome) (now : List Char)
    (st : AppState) (hq : pyTruthy q = true) (ha : pyTruthy a = true)
    (hf : optTruthy st.current_feedback = false) :
    (main_submit_step q a true g now st).1.chat_history =
      st.chat_history ++ [gradeRecord q a now g] ∧
    (gradeRecord q a now g).timestamp = now ∧
    displayed_history (main_submit_step q a true g now st).1.chat_history =
      gradeRecord q a now g :: displayed_history st.chat_history := by
  have hstep : main_submit_step q a true g now st =
      ({ current_feedback := some (gradeRecord q a now g).feedback
         current_scores := (gradeRecord q a now g).scores
         chat_history := st.chat_history ++ [gradeRecord q a now g] },
       [Effect.generationCall]) := by
    simp [main_submit_step, hq, ha, hf]
  rw [hstep]
  refine ⟨rfl, rfl, ?_⟩
  simp [displayed_history]

def wQ : List Char := ("考題" : String).data

def wA : List Char := ("作答" : String).data

def wNow : List Char := ("2026-10-12 08:00:00" : String).data

def wGen : GenOutcome := ⟨[("回饋 " : String).data, ("\x7b\"切題性\": 4\x7d" : String).data], none⟩

def wState : AppState := ⟨none, none, []⟩

/-- C7 witness: a concrete grading call appends exactly one record. -/
theorem C7_witness :
    (main_submit_step wQ wA true wGen wNow wState).1.chat_history =
      wState.chat_history ++ [gradeRecord wQ wA wNow wGen] ∧
    (gradeRecord wQ wA wNow wGen).timestamp = wNow ∧
    displayed_history (main_submit_step wQ wA true wGen wNow wState).1.chat_history =
      gradeRecord wQ wA wNow wGen :: displayed_history wState.chat_history :=
  C7_exactly_one_record wQ wA wGen wNow wState rfl rfl rfl

/-- C8: a nonempty score list of n categories yields a closed series of
n + 1 points whose first and last entries coincide, on values and labels
alike; empty input yields the empty series without error. -/
theorem C8_radar_closed_series (scores : List Int) (cats : List (List Char))
    (hs : scores ≠ []) (hc : cats ≠ []) :
    (create_radar_chart scores cats).1.length = scores.length + 1 ∧
    (create_radar_chart scores cats).2.length = cats.length + 1 ∧
    (create_radar_chart scores cats).1.head? = (create_radar_chart scores cats).1.getLast? ∧
    (create_radar_chart scores cats).2.head? = (create_radar_chart scores cats).2.getLast? ∧
    create_radar_chart ([] : List Int) ([] : List (List Char)) = ([], []) := by
  cases scores with
  | nil => exact absurd rfl hs
  | cons x xs =>
    cases cats with
    | nil => exact absurd rfl hc
    | cons y ys =>
      refine ⟨?_, ?_, ?_, ?_, rfl⟩
      · simp [create_radar_chart]
      · simp [create_radar_chart]
      · show ((x :: xs) ++ [x]).head? = ((x :: xs) ++ [x]).getLast?
        rw [List.getLast?_concat]
        simp
      · show ((y :: ys) ++ [y]).head? = ((y :: ys) ++ [y]).getLast?
        rw [List.getLast?_concat]
        simp

def wScores : List Int := [4, 3, 5, 4, 2]

def wCats : List (List Char) :=
  [("切題性" : String).data, ("結構與邏輯" : String).data, ("專業與政策理解" : String).data,
   ("批判與建議具體性" : String).data, ("語言與表達" : String).data]

/-- C8 witness: the five-category example yields a six-point closed
series. -/
theorem C8_witness :
    (create_radar_chart wScores wCats).1.length = 6 ∧
    (create_radar_chart wScores wCats).2.length = 6 ∧
    (create_radar_chart wScores wCats).1.head? = (create_radar_chart wScores wCats).1.getLast? ∧
    (create_radar_chart wScores wCats).2.head? = (create_radar_chart wScores wCats).2.getLast? ∧
    create_radar_chart ([] : List Int) ([] : List (List Char)) = ([], []) :=
  C8_radar_closed_series wScores wCats (by decide) (by decide)

/-- C9: the displayed total line always reports the sum of the present
category values over the hard-coded denominator 25, for any number of
present categories, in both the live scores panel and the history panel. -/
theorem C9_sum_over_fixed_denominator (scores : List (List Char × Int)) :
    (display_scores scores).get? 1 =
      some (("### 總分: " : String).data ++ intStr (sumValues scores) ++
        (" / 25 分" : String).data) ∧
    history_total_line scores =
      ("**總分**: " : String).data ++ intStr (sumValues scores) ++ ("/25 分" : String).data :=
  ⟨rfl, rfl⟩

/-- C10: the chart adapter never mutates its argument lists — after the
call both references still hold their original contents, and the two result
series are fresh closed copies. -/
theorem C10_no_argument_mutation (h : List (List PyVal)) (rScores rCats : Nat)
    (h1 : rScores < h.length) (h2 : rCats < h.length) :
    heapGet (create_radar_chart_py h rScores rCats).1 rScores = heapGet h rScores ∧
    heapGet (create_radar_chart_py h rScores rCats).1 rCats = heapGet h rCats ∧
    heapGet (create_radar_chart_py h rScores rCats).1
        (create_radar_chart_py h rScores rCats).2.1 =
      heapGet h rScores ++ (heapGet h rScores).take 1 ∧
    heapGet (create_radar_chart_py h rScores rCats).1
        (create_radar_chart_py h rScores rCats).2.2 =
      heapGet h rCats ++ (heapGet h rCats).take 1 := by
  have key1 : ∀ (xs : List (List PyVal)) (y : List PyVal) (n : Nat), n < xs.length →
      (xs ++ [y]).getD n [] = xs.getD n [] := fun xs y n hn => List.getD_append xs [y] [] n hn
  have key2 : ∀ (xs : List (List PyVal)) (y : List PyVal), (xs ++ [y]).getD xs.length [] = y := by
    intro xs y
    rw [List.getD_append_right xs [y] [] xs.length (Nat.le_refl _)]
    simp
  have hlen1 : rScores < (h ++ [heapGet h rScores ++ (heapGet h rScores).take 1]).length := by
    simp; omega
  have hlen2 : rCats < (h ++ [heapGet h rScores ++ (heapGet h rScores).take 1]).length := by
    simp; omega
  have hlen3 : h.length < (h ++ [heapGet h rScores ++ (heapGet h rScores).take 1]).length := by
    simp
  refine ⟨?_, ?_, ?_, ?_⟩
  · show ((h ++ [heapGet h rScores ++ (heapGet h rScores).take 1]) ++
        [heapGet (h ++ [heapGet h rScores ++ (heapGet h rScores).take 1]) rCats ++
          (heapGet (h ++ [heapGet h rScores ++ (heapGet h rScores).take 1]) rCats).take 1]).getD
        rScores [] = h.getD rScores []
    rw [key1 _ _ _ hlen1, key1 _ _ _ h1]
  · show ((h ++ [heapGet h rScores ++ (heapGet h rScores).take 1]) ++
        [heapGet (h ++ [heapGet h rScores ++ (heapGet h rScores).take 1]) rCats ++
          (heapGet (h ++ [heapGet h rScores ++ (heapGet h rScores).take 1]) rCats).take 1]).getD
        rCats [] = h.getD rCats []
    rw [key1 _ _ _ hlen2, key1 _ _ _ h2]
  · show ((h ++ [heapGet h rScores ++ (heapGet h rScores).take 1]) ++
        [heapGet (h ++ [heapGet h rScores ++ (heapGet h rScores).take 1]) rCats ++
          (heapGet (h ++ [heapGet h rScores ++ (heapGet h rScores).take 1]) rCats).take 1]).getD
        h.length [] = heapGet h rScores ++ (heapGet h rScores).take 1
    rw [key1 _ _ _ hlen3, key2]
  · show ((h ++ [heapGet h rScores ++ (heapGet h rScores).take 1]) ++
        [heapGet (h ++ [heapGet h rScores ++ (heapGet h rScores).take 1]) rCats ++
          (heapGet (h ++ [heapGet h rScores ++ (heapGet h rScores).take 1]) rCats).take 1]).getD
        (h ++ [heapGet h rScores ++ (heapGet h rScores).take 1]).length [] =
      heapGet h rCats ++ (heapGet h rCats).take 1
    rw [key2]
    have hg : heapGet (h ++ [heapGet h rScores ++ (heapGet h rScores).take 1]) rCats =
        heapGet h rCats := key1 _ _ _ h2
    rw [hg]

def wHeap : List (List PyVal) :=
  [[PyVal.int 4, PyVal.int 3], [PyVal.str ("切題性" : String).data, PyVal.str ("結構" : String).data]]

/-- C10 witness: a concrete two-object heap; both argument lists are
untouched and the results are fresh closed copies. -/
theorem C10_witness :
    heapGet (create_radar_chart_py wHeap 0 1).1 0 = heapGet wHeap 0 ∧
    heapGet (create_radar_chart_py wHeap 0 1).1 1 = heapGet wHeap 1 ∧
    heapGet (create_radar_chart_py wHeap 0 1).1 (create_radar_chart_py wHeap 0 1).2.1 =
      heapGet wHeap 0 ++ (heapGet wHeap 0).take 1 ∧
    heapGet (create_radar_chart_py wHeap 0 1).1 (create_radar_chart_py wHeap 0 1).2.2 =
      heapGet wHeap 1 ++ (heapGet wHeap 1).take 1 :=
  C10_no_argument_mutation wHeap 0 1 (by decide) (by decide)

end Essay

